import Mathlib

/-!
# Verification of the RL-based QoS allocation system

A shallow embedding, over `ℚ`, of the core algorithmic parts of the
repository `RL-Based-QoS-Allocation-`:

* `src/rl_agent/ddqn_agent.py` — DDQN agent: epsilon-greedy action
  selection, the double-DQN bootstrapped target, the simple and the
  prioritized replay buffers, the target-network hard update;
* `src/controller/ryu_controller.py` — port-stats bandwidth arithmetic,
  the state estimator's loss-ratio components, the decision loop's
  debouncing and the QoS policy application;
* `src/environment/network_env.py` — the simulated environment's `step`;
* `src/training/train.py` — the per-step structure of `_train_episode`.

Machine floats are modelled by rationals; the random draws consumed by
the Python code (`random.random()`, `random.randint`, `np.random.randn`,
batch sampling) are passed in as explicit arguments, so every definition
is a pure function of its inputs.
-/

namespace RLQoS

/-! ## Argmax with first-index tie-breaking

`torch.argmax` returns the index of the first maximal entry of the
flattened tensor; `q_values.argmax().item()` in `select_action` and
`self.policy_net(next_states).argmax(1)` in `train_step` therefore
compute, per row, the least index attaining the maximum. -/

/-- First index of the maximal element of a list of rationals
(0 on the empty list), as computed by `torch.argmax`. -/
def argmaxIdx : List ℚ → ℕ
  | [] => 0
  | [_] => 0
  | x :: y :: ys =>
    let j := argmaxIdx (y :: ys)
    if x < (y :: ys).getD j 0 then j + 1 else 0

theorem argmaxIdx_lt_length : ∀ (l : List ℚ), l ≠ [] → argmaxIdx l < l.length
  | [], h => absurd rfl h
  | [_], _ => Nat.zero_lt_one
  | x :: y :: ys, _ => by
    have ih := argmaxIdx_lt_length (y :: ys) (by simp)
    simp only [argmaxIdx]
    split
    · simpa using Nat.succ_lt_succ ih
    · simp

theorem argmaxIdx_is_max :
    ∀ (l : List ℚ) (i : ℕ), i < l.length → l.getD i 0 ≤ l.getD (argmaxIdx l) 0
  | [], i, h => by simp at h
  | [x], i, h => by
    have : i = 0 := by simpa using Nat.lt_one_iff.mp (by simpa using h)
    subst this
    simp [argmaxIdx]
  | x :: y :: ys, i, h => by
    have ih := fun i hi => argmaxIdx_is_max (y :: ys) i hi
    simp only [argmaxIdx]
    split
    · rename_i hx
      match i with
      | 0 => simpa using le_of_lt hx
      | i + 1 =>
        have hi : i < (y :: ys).length := by simpa using h
        simpa using ih i hi
    · rename_i hx
      push_neg at hx
      match i with
      | 0 => simp
      | i + 1 =>
        have hi : i < (y :: ys).length := by simpa using h
        have := le_trans (ih i hi)
          (le_trans (le_refl _) hx)
        simpa using this

theorem argmaxIdx_first :
    ∀ (l : List ℚ) (i : ℕ), i < argmaxIdx l → l.getD i 0 < l.getD (argmaxIdx l) 0
  | [], i, h => by simp [argmaxIdx] at h
  | [x], i, h => by simp [argmaxIdx] at h
  | x :: y :: ys, i, h => by
    have ih := fun i hi => argmaxIdx_first (y :: ys) i hi
    simp only [argmaxIdx] at h ⊢
    split at h
    · rename_i hx
      simp only [if_pos hx]
      match i with
      | 0 => simpa using hx
      | i + 1 =>
        have hi : i < argmaxIdx (y :: ys) := by omega
        simpa using ih i hi
    · omega

/-! ## Epsilon-greedy action selection (`DDQNAgent.select_action`)

```python
if random.random() < epsilon:
    return random.randint(0, self.action_dim - 1)
else:
    ...
    q_values = self.policy_net(state_tensor)
    return q_values.argmax().item()
```

The draw of `random.random()` (a value in `[0, 1)`) and the action that
`random.randint` would produce are explicit arguments; the policy
network's output on the given state is the list `qValues`. -/

/-- `DDQNAgent.select_action`: explore with the pre-drawn random action
when the uniform draw `r` falls below `epsilon`, otherwise exploit by
taking the first-index argmax of the policy network's Q-values. -/
def selectAction (r : ℚ) (randomAction : ℕ) (epsilon : ℚ) (qValues : List ℚ) : ℕ :=
  if r < epsilon then randomAction else argmaxIdx qValues

/-! ## Double-DQN bootstrapped target (`DDQNAgent.train_step`)

```python
next_actions = self.policy_net(next_states).argmax(1)
next_q_values = self.target_net(next_states).gather(1, next_actions.unsqueeze(1)).squeeze()
target_q_values = rewards + (1 - dones) * self.gamma * next_q_values
```

Per sampled transition, with `qPolicyNext` and `qTargetNext` the rows of
the two networks' outputs at the transition's next state. -/

/-- Per-transition double-DQN target exactly as `train_step` computes it:
the next action is the policy network's first-index argmax at the next
state, its value is read from the target network's output. -/
def ddqnTarget (reward gamma done : ℚ) (qPolicyNext qTargetNext : List ℚ) : ℚ :=
  reward + (1 - done) * gamma * qTargetNext.getD (argmaxIdx qPolicyNext) 0

/-- A transition as stored in the replay buffer
(`Experience = namedtuple('Experience', [...])`). -/
structure Experience where
  state : List ℚ
  action : ℕ
  reward : ℚ
  next_state : List ℚ
  done : Bool
deriving DecidableEq, Inhabited, Repr

/-- `dones = torch.FloatTensor([e.done for e in batch])`: the stored
boolean flag as the 0/1 rational used in the target formula. -/
def doneFloat (d : Bool) : ℚ := if d then 1 else 0

/-- The target `train_step` computes for one sampled transition, with the
two networks given as functions from states to Q-value rows. -/
def transitionTarget (gamma : ℚ) (qPolicy qTarget : List ℚ → List ℚ)
    (e : Experience) : ℚ :=
  ddqnTarget e.reward gamma (doneFloat e.done) (qPolicy e.next_state) (qTarget e.next_state)

/-- **C1.** The bootstrapped target of `DDQNAgent.train_step` equals
`reward + gamma × (1 − done) × Q_target(next_state, argmax_a Q_policy(next_state, a))`
— the next action is the first-index argmax of the *policy* network's
output and is evaluated on the *target* network's output — and for a
transition stored with `done = true` (so `done` unpacks to `1.0`) the
target equals the reward exactly, whatever `gamma` is. -/
theorem train_step_double_dqn_target (gamma : ℚ) (qPolicy qTarget : List ℚ → List ℚ)
    (e : Experience) (s ns : List ℚ) (a : ℕ) (r : ℚ) :
    transitionTarget gamma qPolicy qTarget e =
      e.reward + gamma * (1 - doneFloat e.done) *
        (qTarget e.next_state).getD (argmaxIdx (qPolicy e.next_state)) 0 ∧
    transitionTarget gamma qPolicy qTarget ⟨s, a, r, ns, true⟩ = r := by
  constructor
  · simp only [transitionTarget, ddqnTarget]
    ring
  · simp [transitionTarget, ddqnTarget, doneFloat]

/-- **C3.** `select_action` with `epsilon = 0` is deterministic: since the
uniform draw `r = random.random()` satisfies `0 ≤ r`, the exploration
branch `r < 0` is impossible, so the result is the first-index argmax of
the Q-values — independent of both random inputs — and when several
actions tie for the maximal Q-value the least such index is returned:
every index before the returned one has a strictly smaller Q-value, and
no index has a larger one. -/
theorem select_action_greedy_deterministic (qValues : List ℚ)
    (r r' : ℚ) (ra ra' : ℕ) (hr : 0 ≤ r) (hr' : 0 ≤ r') :
    selectAction r ra 0 qValues = selectAction r' ra' 0 qValues ∧
    selectAction r ra 0 qValues = argmaxIdx qValues ∧
    (∀ i, i < qValues.length →
      qValues.getD i 0 ≤ qValues.getD (selectAction r ra 0 qValues) 0) ∧
    (∀ i, i < selectAction r ra 0 qValues →
      qValues.getD i 0 < qValues.getD (selectAction r ra 0 qValues) 0) := by
  have hbr : ¬ r < 0 := not_lt.mpr hr
  have hbr' : ¬ r' < 0 := not_lt.mpr hr'
  have h1 : selectAction r ra 0 qValues = argmaxIdx qValues := by
    simp [selectAction, hbr]
  have h2 : selectAction r' ra' 0 qValues = argmaxIdx qValues := by
    simp [selectAction, hbr']
  refine ⟨h1.trans h2.symm, h1, ?_, ?_⟩
  · intro i hi
    rw [h1]
    exact argmaxIdx_is_max qValues i hi
  · intro i hi
    rw [h1] at hi ⊢
    exact argmaxIdx_first qValues i hi

/-- Witness for C3 at a concrete Q-row with a tie for the maximum:
`[3, 7, 7]` — the greedy action is index 1, the first maximal entry. -/
theorem select_action_greedy_deterministic_witness :
    (0 : ℚ) ≤ 1/2 ∧ (0 : ℚ) ≤ 1/4 ∧
    selectAction (1/2) 0 0 [3, 7, 7] = 1 := by
  refine ⟨by norm_num, by norm_num, ?_⟩
  have h := select_action_greedy_deterministic [3, 7, 7] (1/2) (1/4) 0 2
    (by norm_num) (by norm_num)
  rw [h.2.1]
  decide

/-! ## Replay buffers

`SimpleReplayBuffer` wraps `deque(maxlen=capacity)`: appending to a full
deque discards the element at the opposite (oldest) end.
`PrioritizedReplayBuffer` keeps an explicit list plus a write cursor
`pos` that wraps modulo the capacity, overwriting the oldest slot. -/

/-- One `SimpleReplayBuffer.push`: `deque(maxlen=cap)` append semantics —
the new element joins at the right and the list is trimmed from the left
down to `cap` entries (for `cap = 0` the deque stays empty). -/
def simplePush {α : Type} (cap : ℕ) (b : List α) (e : α) : List α :=
  (b ++ [e]).drop (b.length + 1 - cap)

/-- A fresh `SimpleReplayBuffer(capacity)` after pushing `xs` in order. -/
def simplePushAll {α : Type} (cap : ℕ) (xs : List α) : List α :=
  xs.foldl (simplePush cap) []

/-- `PrioritizedReplayBuffer`: experience list, parallel priority list and
the ring-write cursor `pos`. -/
structure PBuf (α : Type) where
  buffer : List α
  priorities : List ℚ
  pos : ℕ
deriving DecidableEq, Repr

/-- `max(self.priorities) if self.priorities else 1.0`. -/
def maxPriority (ps : List ℚ) : ℚ :=
  match ps with
  | [] => 1
  | p :: rest => rest.foldl max p

/-- `PrioritizedReplayBuffer.push`: append while below capacity, otherwise
overwrite the slot at `pos`; either way the cursor advances modulo the
capacity. -/
def pushP {α : Type} (cap : ℕ) (b : PBuf α) (e : α) : PBuf α :=
  let mp := maxPriority b.priorities
  if b.buffer.length < cap then
    { buffer := b.buffer ++ [e], priorities := b.priorities ++ [mp],
      pos := (b.pos + 1) % cap }
  else
    { buffer := b.buffer.set b.pos e, priorities := b.priorities.set b.pos mp,
      pos := (b.pos + 1) % cap }

/-- `PrioritizedReplayBuffer.__init__`: empty lists, cursor at 0. -/
def emptyPBuf {α : Type} : PBuf α := ⟨[], [], 0⟩

/-- A fresh `PrioritizedReplayBuffer(capacity)` after pushing `xs` in order. -/
def pushAllP {α : Type} (cap : ℕ) (xs : List α) : PBuf α :=
  xs.foldl (pushP cap) emptyPBuf

/-- Logical (oldest-first) contents of the ring buffer: the entries from
the cursor to the end, then those before the cursor. -/
def pcontents {α : Type} (b : PBuf α) : List α :=
  b.buffer.drop b.pos ++ b.buffer.take b.pos

theorem mem_pcontents {α : Type} (b : PBuf α) (x : α) :
    x ∈ pcontents b ↔ x ∈ b.buffer := by
  conv_rhs => rw [← List.take_append_drop b.pos b.buffer]
  simp only [pcontents, List.mem_append]
  tauto

theorem simplePush_foldl_closed {α : Type} (cap : ℕ) :
    ∀ (xs b : List α), b.length ≤ cap →
      xs.foldl (simplePush cap) b = (b ++ xs).drop (b.length + xs.length - cap)
  | [], b, hb => by
    simp [Nat.sub_eq_zero_of_le hb]
  | e :: xs, b, hb => by
    rw [List.foldl_cons]
    have hlen : (simplePush cap b e).length = b.length + 1 - (b.length + 1 - cap) := by
      rw [simplePush, List.length_drop, List.length_append, List.length_singleton]
    have hle : (simplePush cap b e).length ≤ cap := by omega
    rw [simplePush_foldl_closed cap xs _ hle, hlen]
    by_cases h : b.length + 1 ≤ cap
    · have h0 : b.length + 1 - cap = 0 := by omega
      have he : simplePush cap b e = b ++ [e] := by
        rw [simplePush, h0, List.drop_zero]
      rw [he, List.append_assoc, List.singleton_append]
      congr 1
      simp only [List.length_cons]
      omega
    · have hcap : b.length = cap := by omega
      have h1 : b.length + 1 - cap = 1 := by omega
      have he : simplePush cap b e = (b ++ [e]).drop 1 := by rw [simplePush, h1]
      rw [he, ← List.drop_append_of_le_length
          (by rw [List.length_append, List.length_singleton]; omega),
        List.drop_drop, List.append_assoc, List.singleton_append]
      congr 1
      simp only [List.length_cons]
      omega

theorem simplePushAll_closed {α : Type} (cap : ℕ) (xs : List α) :
    simplePushAll cap xs = xs.drop (xs.length - cap) := by
  have := simplePush_foldl_closed cap xs [] (by simp)
  simpa [simplePushAll] using this

theorem pushAllP_inv {α : Type} (cap : ℕ) (hc : 0 < cap) (xs : List α) :
    (pushAllP cap xs).buffer.length = min xs.length cap ∧
    (pushAllP cap xs).pos = xs.length % cap ∧
    pcontents (pushAllP cap xs) = xs.drop (xs.length - cap) := by
  induction xs using List.reverseRecOn with
  | nil => simp [pushAllP, emptyPBuf, pcontents]
  | append_singleton xs e ih =>
    obtain ⟨hlen, hpos, hcont⟩ := ih
    have hstep : pushAllP cap (xs ++ [e]) = pushP cap (pushAllP cap xs) e := by
      simp [pushAllP, List.foldl_concat]
    set st := pushAllP cap xs with hst
    set n := xs.length with hn
    by_cases hfull : n < cap
    · -- append branch: the buffer is still filling
      have hblen : st.buffer.length = n := by rw [hlen]; omega
      have hposn : st.pos = n := by rw [hpos]; exact Nat.mod_eq_of_lt hfull
      have hbuf : st.buffer = xs := by
        have h1 : pcontents st = st.buffer := by
          rw [pcontents, hposn, ← hblen, List.drop_length, List.take_length]
          simp
        have h2 : pcontents st = xs := by
          rw [hcont]
          simp [Nat.sub_eq_zero_of_le (le_of_lt hfull)]
        exact h1.symm.trans h2
      have hbranch : st.buffer.length < cap := by omega
      rw [hstep, pushP, if_pos hbranch]
      refine ⟨by simp [hbuf]; omega, by simp [hposn, Nat.mod_add_mod], ?_⟩
      · -- contents of the extended buffer
        have hd0 : (xs ++ [e]).length - cap = 0 := by simp; omega
        rw [hd0, List.drop_zero]
        by_cases hfit : n + 1 < cap
        · have hpos2 : (st.pos + 1) % cap = n + 1 := by
            rw [hposn]; exact Nat.mod_eq_of_lt hfit
          simp only [pcontents, hbuf, hpos2]
          have hL : (xs ++ [e]).length = n + 1 := by simp
          rw [← hL, List.drop_length, List.take_length]
          simp
        · have hcapeq : n + 1 = cap := by omega
          have hpos2 : (st.pos + 1) % cap = 0 := by
            rw [hposn, hcapeq]; exact Nat.mod_self cap
          simp [pcontents, hbuf, hpos2]
    · -- overwrite branch: the buffer is full, slot `pos` is replaced
      have hcapn : cap ≤ n := le_of_not_lt hfull
      have hblen : st.buffer.length = cap := by rw [hlen]; omega
      have hposlt : st.pos < cap := by rw [hpos]; exact Nat.mod_lt _ hc
      have hbranch : ¬ st.buffer.length < cap := by omega
      rw [hstep, pushP, if_neg hbranch]
      set p := st.pos with hp
      have hplt : p < st.buffer.length := by omega
      have hset : st.buffer.set p e = st.buffer.take p ++ e :: st.buffer.drop (p + 1) := by
        rw [List.set_eq_take_append_cons_drop, if_pos hplt]
      have htarget : (xs ++ [e]).drop ((xs ++ [e]).length - cap) =
          (pcontents st).drop 1 ++ [e] := by
        have hL : (xs ++ [e]).length - cap = (n - cap) + 1 := by simp; omega
        rw [hL, List.drop_append_of_le_length (by omega), hcont, ← List.drop_drop]
      have hcd : (pcontents st).drop 1 = st.buffer.drop (p + 1) ++ st.buffer.take p := by
        rw [pcontents, List.drop_append_of_le_length (by simp; omega), List.drop_drop]
      refine ⟨by simp [hblen]; omega, by simp [hpos, Nat.mod_add_mod], ?_⟩
      rw [htarget, hcd]
      by_cases hpcap : p + 1 < cap
      · have hpos2 : (p + 1) % cap = p + 1 := Nat.mod_eq_of_lt hpcap
        simp only [pcontents, hpos2]
        have hdropset : (st.buffer.set p e).drop (p + 1) = st.buffer.drop (p + 1) := by
          rw [hset, List.drop_append_eq_append_drop]
          have htp : (st.buffer.take p).length = p := by
            rw [List.length_take]; omega
          rw [htp]
          have : (st.buffer.take p).drop (p + 1) = [] := by
            apply List.drop_eq_nil_of_le
            rw [htp]; omega
          rw [this]
          simp
        have htakeset : (st.buffer.set p e).take (p + 1) = st.buffer.take p ++ [e] := by
          rw [hset, List.take_append_eq_append_take]
          have htp : (st.buffer.take p).length = p := by
            rw [List.length_take]; omega
          rw [htp, List.take_take]
          have hmin : min (p + 1) p = p := by omega
          rw [hmin]
          have : p + 1 - p = 1 := by omega
          rw [this]
          simp
        rw [hdropset, htakeset, List.append_assoc]
      · have hpeq : p + 1 = cap := by omega
        have hpos2 : (p + 1) % cap = 0 := by rw [hpeq]; exact Nat.mod_self cap
        simp only [pcontents, hpos2, List.drop_zero, List.take_zero, List.append_nil]
        have hdropnil : st.buffer.drop (p + 1) = [] := by
          apply List.drop_eq_nil_of_le
          omega
        rw [hdropnil, hset, hdropnil, List.nil_append]

/-- **C2.** FIFO behaviour of both replay buffers at capacity `C > 0`:
after pushing `C + k` experiences, each buffer holds exactly `C` entries;
no prefix of the push sequence ever makes either buffer exceed `C`; the
surviving (oldest-first) contents are exactly the last `C` pushes, the
`k` oldest having been evicted one per overflowing push in FIFO order;
and when the pushed values are pairwise distinct, none of the `k` oldest
values is retrievable from either buffer any more. -/
theorem replay_buffer_fifo_eviction {α : Type} (C k : ℕ) (hc : 0 < C)
    (xs : List α) (hlen : xs.length = C + k) :
    (simplePushAll C xs).length = C ∧
    simplePushAll C xs = xs.drop k ∧
    (∀ i, (simplePushAll C (xs.take i)).length ≤ C) ∧
    (pushAllP C xs).buffer.length = C ∧
    (∀ i, (pushAllP C (xs.take i)).buffer.length ≤ C) ∧
    pcontents (pushAllP C xs) = xs.drop k ∧
    (∀ j, j ≤ k → simplePushAll C (xs.take (C + j)) = (xs.take (C + j)).drop j ∧
      pcontents (pushAllP C (xs.take (C + j))) = (xs.take (C + j)).drop j) ∧
    (xs.Nodup → ∀ x ∈ xs.take k, x ∉ simplePushAll C xs ∧ x ∉ (pushAllP C xs).buffer) := by
  have hsimple : simplePushAll C xs = xs.drop k := by
    rw [simplePushAll_closed, hlen]
    congr 1
    omega
  have hpinv := pushAllP_inv C hc xs
  have hpcont : pcontents (pushAllP C xs) = xs.drop k := by
    rw [hpinv.2.2, hlen]
    congr 1
    omega
  refine ⟨?_, hsimple, ?_, ?_, ?_, hpcont, ?_, ?_⟩
  · rw [hsimple, List.length_drop, hlen]; omega
  · intro i
    rw [simplePushAll_closed, List.length_drop]
    omega
  · rw [hpinv.1, hlen]; omega
  · intro i
    rw [(pushAllP_inv C hc (xs.take i)).1]
    omega
  · intro j hj
    have hTlen : (xs.take (C + j)).length = C + j := by
      rw [List.length_take]; omega
    constructor
    · rw [simplePushAll_closed, hTlen]
      congr 1
      omega
    · rw [(pushAllP_inv C hc (xs.take (C + j))).2.2, hTlen]
      congr 1
      omega
  · intro hnd x hx
    have hsplit := List.take_append_drop k xs
    have hnd2 : (xs.take k ++ xs.drop k).Nodup := by rw [hsplit]; exact hnd
    have hdisj := (List.nodup_append.mp hnd2).2.2
    have hnotin : x ∉ xs.drop k := hdisj hx
    constructor
    · rw [hsimple]; exact hnotin
    · intro hmem
      exact hnotin (by rw [← hpcont]; exact (mem_pcontents _ x).mpr hmem)

/-- Witness for C2 at capacity 2 with three distinct pushes: both buffers
end at size 2 holding the last two pushes, and the evicted first push is
gone from both. -/
theorem replay_buffer_fifo_eviction_witness :
    simplePushAll 2 [10, 20, 30] = [20, 30] ∧
    pcontents (pushAllP 2 ([10, 20, 30] : List ℕ)) = [20, 30] ∧
    (10 : ℕ) ∉ (pushAllP 2 ([10, 20, 30] : List ℕ)).buffer := by
  have h := replay_buffer_fifo_eviction 2 1 (by decide) ([10, 20, 30] : List ℕ) (by decide)
  refine ⟨?_, ?_, ?_⟩
  · simpa using h.2.1
  · simpa using h.2.2.2.2.2.1
  · have := h.2.2.2.2.2.2.2 (by decide) 10 (by decide)
    exact this.2

/-! ## Port-stats bandwidth arithmetic
(`RLQoSController._port_stats_reply_handler`)

```python
if time_diff > 0:
    rx_bw = ((stat.rx_bytes - prev_stat['rx_bytes']) * 8) / (time_diff * 1e6)
    ...
    self.current_bandwidth[port_no] = {'rx': max(0, rx_bw), 'tx': max(0, tx_bw)}
```
-/

/-- The raw per-direction rate before the floor:
`((bytes_now − bytes_prev) * 8) / (time_diff * 1e6)`. -/
def rawBwMbps (bytesNow bytesPrev : ℕ) (timeDiff : ℚ) : ℚ :=
  (((bytesNow : ℚ) - (bytesPrev : ℚ)) * 8) / (timeDiff * 1000000)

/-- The value stored in `current_bandwidth`: `max(0, raw)`. -/
def storedBwMbps (bytesNow bytesPrev : ℕ) (timeDiff : ℚ) : ℚ :=
  max 0 (rawBwMbps bytesNow bytesPrev timeDiff)

/-- **C4.** For any update with elapsed time > 0, the stored per-direction
bandwidth is `max(0, (bytes_now − bytes_prev) × 8 / (elapsed × 1e6))`
Mbps; a 125000-byte delta over exactly 1 second gives exactly 1 Mbps; and
on a counter reset (`bytes_now < bytes_prev`) the stored value is 0,
never negative. -/
theorem port_stats_bandwidth (bytesNow bytesPrev : ℕ) (timeDiff : ℚ)
    (ht : 0 < timeDiff) :
    storedBwMbps bytesNow bytesPrev timeDiff =
      max 0 ((((bytesNow : ℚ) - (bytesPrev : ℚ)) * 8) / (timeDiff * 1000000)) ∧
    storedBwMbps 125000 0 1 = 1 ∧
    (bytesNow < bytesPrev → storedBwMbps bytesNow bytesPrev timeDiff = 0) := by
  refine ⟨rfl, ?_, ?_⟩
  · norm_num [storedBwMbps, rawBwMbps]
  · intro hlt
    have hnum : ((bytesNow : ℚ) - (bytesPrev : ℚ)) * 8 ≤ 0 := by
      have : (bytesNow : ℚ) < (bytesPrev : ℚ) := by exact_mod_cast hlt
      nlinarith
    have hden : 0 ≤ timeDiff * 1000000 := by positivity
    have hraw : rawBwMbps bytesNow bytesPrev timeDiff ≤ 0 :=
      div_nonpos_of_nonpos_of_nonneg hnum hden
    simpa [storedBwMbps] using max_eq_left hraw

/-- Witness for C4 at a counter-reset input over half a second. -/
theorem port_stats_bandwidth_witness :
    (0 : ℚ) < 1/2 ∧ storedBwMbps 100 200 (1/2) = 0 ∧ storedBwMbps 125000 0 1 = 1 := by
  have h := port_stats_bandwidth 100 200 (1/2) (by norm_num)
  exact ⟨by norm_num, h.2.2 (by norm_num), h.2.1⟩

/-! ## State-estimator loss ratios (`RLQoSController._get_network_state`)

```python
for port_no in self.device_ports['work']:
    stat = self.port_stats.get(port_no, {})
    dropped = stat.get('rx_dropped', 0) + stat.get('tx_dropped', 0)
    packets = stat.get('rx_packets', 1) + stat.get('tx_packets', 1)
    work_loss += dropped / max(packets, 1)
...
state = np.array([..., min(work_loss, 1.0), ...])
```

`port_stats[port]` is the latest *cumulative* counter snapshot stored by
the stats handler, so the ratios are taken over lifetime totals, not over
deltas between two snapshots. -/

/-- One stored port-stats snapshot (cumulative counters). -/
structure PortStat where
  rx_bytes : ℕ
  tx_bytes : ℕ
  rx_packets : ℕ
  tx_packets : ℕ
  rx_dropped : ℕ
  tx_dropped : ℕ
deriving DecidableEq, Repr

/-- `stat.get('rx_dropped', 0) + stat.get('tx_dropped', 0)` where a port
with no stored snapshot yields the empty dict. -/
def statDropped : Option PortStat → ℕ
  | none => 0
  | some s => s.rx_dropped + s.tx_dropped

/-- `stat.get('rx_packets', 1) + stat.get('tx_packets', 1)` — the two
defaults make a missing port contribute a denominator of 2. -/
def statPackets : Option PortStat → ℕ
  | none => 2
  | some s => s.rx_packets + s.tx_packets

/-- One port's contribution, `dropped / max(packets, 1)`. -/
def portLossTerm (stats : ℕ → Option PortStat) (p : ℕ) : ℚ :=
  (statDropped (stats p) : ℚ) / ((max (statPackets (stats p)) 1 : ℕ) : ℚ)

/-- `device_ports['work']`. -/
def workPorts : List ℕ := [1, 2]

/-- `device_ports['entertainment']`. -/
def entertainmentPorts : List ℕ := [3, 4]

/-- A class's accumulated loss, `Σ_ports dropped / max(packets, 1)`. -/
def classLoss (stats : ℕ → Option PortStat) (ports : List ℕ) : ℚ :=
  (ports.map (portLossTerm stats)).sum

/-- The loss component placed in the state vector: `min(work_loss, 1.0)`. -/
def classLossComponent (stats : ℕ → Option PortStat) (ports : List ℕ) : ℚ :=
  min (classLoss stats ports) 1

/-- The loss ratio as the spec words it (for comparison with the code):
`dropped_delta / max(packet_delta, 1)` between two successive snapshots,
clamped to `[0, 1]`. -/
def specDeltaLossRatio (prev now : PortStat) : ℚ :=
  let droppedDelta : ℤ := (now.rx_dropped + now.tx_dropped : ℤ) -
    (prev.rx_dropped + prev.tx_dropped : ℤ)
  let packetDelta : ℤ := (now.rx_packets + now.tx_packets : ℤ) -
    (prev.rx_packets + prev.tx_packets : ℤ)
  min (max ((droppedDelta : ℚ) / ((max packetDelta 1 : ℤ) : ℚ)) 0) 1

/-- **C5 counterexample.** A port whose cumulative counters report 10
drops out of 100 packets and then stay unchanged: between the two equal
snapshots every delta is zero, so the spec's delta formula gives 0, yet
the code's component — computed from the cumulative totals the controller
actually stores — is 1/10. The claim's equality fails at this input. -/
theorem state_loss_delta_counterexample :
    classLossComponent
      (fun p => if p = 1 then some ⟨0, 0, 60, 40, 6, 4⟩ else none) workPorts = 1/10 ∧
    specDeltaLossRatio ⟨0, 0, 60, 40, 6, 4⟩ ⟨0, 0, 60, 40, 6, 4⟩ = 0 ∧
    (1/10 : ℚ) ≠ 0 := by
  refine ⟨?_, ?_, by norm_num⟩
  · norm_num [classLossComponent, classLoss, workPorts, portLossTerm,
      statDropped, statPackets, List.map, List.sum]
  · norm_num [specDeltaLossRatio]

/-- **C5 amended.** Each class's loss component equals the sum, over the
class's ports, of `cumulative_dropped / max(cumulative_packets, 1)` taken
from the latest stored snapshots (not deltas), clamped above at 1 — and
the result always lies in `[0, 1]`. -/
theorem state_loss_component_cumulative (stats : ℕ → Option PortStat)
    (ports : List ℕ) :
    classLossComponent stats ports =
      min ((ports.map fun p =>
        (statDropped (stats p) : ℚ) / ((max (statPackets (stats p)) 1 : ℕ) : ℚ))).sum 1 ∧
    0 ≤ classLossComponent stats ports ∧
    classLossComponent stats ports ≤ 1 := by
  refine ⟨rfl, ?_, min_le_right _ _⟩
  have hsum : 0 ≤ classLoss stats ports := by
    apply List.sum_nonneg
    intro x hx
    simp only [List.mem_map] at hx
    obtain ⟨p, _, rfl⟩ := hx
    apply div_nonneg
    · exact_mod_cast Nat.zero_le _
    · exact_mod_cast Nat.zero_le _
  exact le_min hsum (by norm_num)

/-! ## Decision loop debouncing and QoS application
(`RLQoSController._rl_decision_loop`, `RLQoSController._apply_qos_policy`)

```python
if action != self.current_action:
    self._apply_qos_policy(action)
    self.current_action = action
else:
    self.logger.info(...)   # no device operation
```

`_apply_qos_policy` sends one `OFPFlowMod` per port (priority 10,
`hard_timeout=5`, queue from `queue_config[action]`). -/

/-- One QoS flow-mod as sent by `_add_flow` from `_apply_qos_policy`. -/
structure FlowMod where
  in_port : ℕ
  queue : ℕ
  priority : ℕ
  hard_timeout : ℕ
deriving DecidableEq, Repr

/-- `queue_config`: action → (work queue, entertainment queue). The dict
has exactly the keys 0, 1, 2, the only values `select_action` produces;
other keys would raise and are mapped to the balanced pair here. -/
def queueConfig (action : ℕ) : ℕ × ℕ :=
  match action with
  | 0 => (0, 2)
  | 1 => (1, 1)
  | 2 => (2, 0)
  | _ => (1, 1)

/-- `_apply_qos_policy(action)`: one rule per work port binding it to the
action's work queue, then one per entertainment port, each with priority
10 and `hard_timeout=5`. -/
def applyQoSPolicy (action : ℕ) : List FlowMod :=
  (workPorts.map fun p =>
    { in_port := p, queue := (queueConfig action).1, priority := 10, hard_timeout := 5 }) ++
  (entertainmentPorts.map fun p =>
    { in_port := p, queue := (queueConfig action).2, priority := 10, hard_timeout := 5 })

/-- One decision cycle after action selection: the flow-mods sent and the
resulting `current_action`. -/
def decisionCycle (current selected : ℕ) : List FlowMod × ℕ :=
  if selected ≠ current then (applyQoSPolicy selected, selected) else ([], current)

/-- **C6.** Debouncing: a cycle whose selected action equals the applied
action sends no flow-mods and leaves `current_action` unchanged, and
after any cycle selecting `a`, a second consecutive cycle selecting the
same `a` sends zero device operations and keeps `current_action = a`. -/
theorem decision_loop_debounce (c a : ℕ) :
    decisionCycle a a = ([], a) ∧
    (decisionCycle (decisionCycle c a).2 a).1 = [] ∧
    (decisionCycle (decisionCycle c a).2 a).2 = (decisionCycle c a).2 := by
  have hself : decisionCycle a a = ([], a) := by simp [decisionCycle]
  have hcur : (decisionCycle c a).2 = a := by
    by_cases h : a = c <;> simp [decisionCycle, h]
  exact ⟨hself, by rw [hcur, hself], by rw [hcur, hself]⟩

/-- **C7 counterexample.** A cycle in which the selected action equals the
applied action (both `1`, the startup value) installs no rule at all, so
the 5-second validity window of the rules installed earlier is *not*
renewed while the action is stable — refuting the claimed per-cycle
renewal. -/
theorem qos_validity_no_renewal_counterexample :
    (decisionCycle 1 1).1 = [] ∧
    ∀ fm ∈ (decisionCycle 1 1).1, False := by
  refine ⟨by simp [decisionCycle], ?_⟩
  intro fm hfm
  simp [decisionCycle] at hfm

/-- **C7 amended.** Every rule installed by `_apply_qos_policy` carries
the bounded validity window `hard_timeout = 5` (at priority 10), but
while the selected action remains equal to the applied action no rule is
reinstalled — the cycle is a no-op — so the validity window is renewed
only when the action changes, and a stable policy's rules lapse 5 seconds
after the last change. -/
theorem qos_rules_bounded_validity (a c : ℕ) (fm : FlowMod)
    (hfm : fm ∈ applyQoSPolicy a) :
    fm.hard_timeout = 5 ∧ fm.priority = 10 ∧ decisionCycle c c = ([], c) := by
  refine ⟨?_, ?_, by simp [decisionCycle]⟩ <;>
  · simp [applyQoSPolicy, workPorts, entertainmentPorts] at hfm
    rcases hfm with h | h | h | h <;> simp [h]

/-- Witness for C7 (amended) at action 0 and the first work-port rule. -/
theorem qos_rules_bounded_validity_witness :
    ({ in_port := 1, queue := 0, priority := 10, hard_timeout := 5 } : FlowMod) ∈
      applyQoSPolicy 0 ∧
    ({ in_port := 1, queue := 0, priority := 10, hard_timeout := 5 } : FlowMod).hard_timeout
      = 5 := by
  have hmem : ({ in_port := 1, queue := 0, priority := 10, hard_timeout := 5 } : FlowMod) ∈
      applyQoSPolicy 0 := by decide
  exact ⟨hmem, (qos_rules_bounded_validity 0 0 _ hmem).1⟩

/-! ## Training step and target-network update
(`DDQNAgent.train_step`, `DDQNAgent.update_target_network`,
`RLTrainer._train_episode`)

Network weights are an abstract type `W`; the optimizer step on the
policy network is an arbitrary function `gradUpdate : W → W`, applied in
`train_step` only to the policy weights. The batch actually drawn by
`random.sample` is given through its index list. -/

/-- `nn.SmoothL1Loss()` elementwise (beta = 1): the Huber branch. -/
def smoothL1 (x : ℚ) : ℚ := if |x| < 1 then x ^ 2 / 2 else |x| - 1 / 2

/-- Mean over a list (SmoothL1Loss default reduction). -/
def listMean (l : List ℚ) : ℚ := l.sum / l.length

/-- `self.policy_net(states).gather(1, actions.unsqueeze(1))` per sample. -/
def currentQ (qPolicy : List ℚ → List ℚ) (e : Experience) : ℚ :=
  (qPolicy e.state).getD e.action 0

/-- The batch loss of `train_step`: mean smooth-L1 distance between the
current Q-estimates and the double-DQN targets. -/
def batchLoss (gamma : ℚ) (qPolicy qTarget : List ℚ → List ℚ)
    (batch : List Experience) : ℚ :=
  listMean (batch.map fun e =>
    smoothL1 (currentQ qPolicy e - transitionTarget gamma qPolicy qTarget e))

/-- `DDQNAgent.train_step`: below `batch_size` stored experiences it
returns `None` and touches nothing; otherwise it samples a batch, takes
one optimizer step on the policy weights and returns the loss. The
result is `(returned loss, policy weights, target weights)`. -/
def trainStep {W : Type} (gradUpdate : W → W) (gamma : ℚ)
    (qPolicy qTarget : List ℚ → List ℚ) (batchSize : ℕ)
    (memory : List Experience) (sampleIdx : List ℕ)
    (policyW targetW : W) : Option ℚ × W × W :=
  if memory.length < batchSize then (none, policyW, targetW)
  else
    let batch := sampleIdx.map fun i => memory.getD i default
    (some (batchLoss gamma qPolicy qTarget batch), gradUpdate policyW, targetW)

/-- `DDQNAgent.update_target_network`:
`self.target_net.load_state_dict(self.policy_net.state_dict())` — the
target weights become an exact copy of the policy weights. -/
def updateTargetNetwork {W : Type} (policyW targetW : W) : W × W :=
  (policyW, policyW)

/-- One loop iteration of `RLTrainer._train_episode` after the
environment step: train on a batch when the memory suffices, then sync
the target network exactly when the pre-increment step counter is
divisible by `target_update_freq`, then advance the counter. -/
def trainerIteration {W : Type} (gradUpdate : W → W) (gamma : ℚ)
    (qPolicy qTarget : List ℚ → List ℚ) (batchSize freq : ℕ)
    (memory : List Experience) (sampleIdx : List ℕ)
    (policyW targetW : W) (steps : ℕ) : W × W × ℕ :=
  let tr := if batchSize ≤ memory.length then
      trainStep gradUpdate gamma qPolicy qTarget batchSize memory sampleIdx policyW targetW
    else (none, policyW, targetW)
  let pw := tr.2.1
  let tw := tr.2.2
  let tw2 := if steps % freq = 0 then (updateTargetNetwork pw tw).2 else tw
  (pw, tw2, steps + 1)

/-- **C8.** `train_step` is a no-op returning `None` — policy and target
weights both untouched, no error — whenever the replay buffer holds fewer
than `batch_size` entries, and otherwise performs a training step
returning the batch loss while stepping only the policy weights. -/
theorem train_step_noop_below_batch {W : Type} (gradUpdate : W → W) (gamma : ℚ)
    (qPolicy qTarget : List ℚ → List ℚ) (batchSize : ℕ)
    (memory : List Experience) (sampleIdx : List ℕ) (policyW targetW : W) :
    (memory.length < batchSize →
      trainStep gradUpdate gamma qPolicy qTarget batchSize memory sampleIdx policyW targetW
        = (none, policyW, targetW)) ∧
    (batchSize ≤ memory.length →
      trainStep gradUpdate gamma qPolicy qTarget batchSize memory sampleIdx policyW targetW
        = (some (batchLoss gamma qPolicy qTarget
            (sampleIdx.map fun i => memory.getD i default)),
          gradUpdate policyW, targetW)) := by
  constructor
  · intro h
    simp [trainStep, h]
  · intro h
    simp [trainStep, not_lt.mpr h]

/-- Witness for C8: a single stored experience with batch size 64 is a
no-op; 64 copies with batch size 1 produce a loss. -/
theorem train_step_noop_below_batch_witness :
    ([(default : Experience)].length < 64) ∧
    trainStep (fun w => w + 1) (99/100) (fun _ => []) (fun _ => []) 64
      [default] [] (0 : ℚ) 0 = (none, 0, 0) ∧
    (1 ≤ [(default : Experience)].length) ∧
    (trainStep (fun w => w + 1) (99/100) (fun _ => []) (fun _ => []) 1
      [default] [0] (0 : ℚ) 0).1.isSome = true := by
  have h := train_step_noop_below_batch (fun w : ℚ => w + 1) (99/100)
    (fun _ => []) (fun _ => []) 64 [default] [] 0 0
  have h2 := train_step_noop_below_batch (fun w : ℚ => w + 1) (99/100)
    (fun _ => []) (fun _ => []) 1 [default] [0] 0 0
  refine ⟨by norm_num, h.1 (by norm_num), by norm_num, ?_⟩
  rw [h2.2 (by norm_num)]
  rfl

/-- **C9.** The target weights change only through the hard copy of
`update_target_network`: a `train_step` never modifies them (the
optimizer only steps the policy weights), `update_target_network` sets
them to an exact copy of the policy weights, and in `_train_episode` that
copy is invoked exactly at the iterations whose step counter is divisible
by `target_update_freq` — in particular not on every step — while the
counter advances by one each iteration. -/
theorem target_network_hard_update_cadence {W : Type} (gradUpdate : W → W)
    (gamma : ℚ) (qPolicy qTarget : List ℚ → List ℚ) (batchSize freq : ℕ)
    (memory : List Experience) (sampleIdx : List ℕ)
    (policyW targetW : W) (steps : ℕ) :
    updateTargetNetwork policyW targetW = (policyW, policyW) ∧
    (trainStep gradUpdate gamma qPolicy qTarget batchSize memory sampleIdx
      policyW targetW).2.2 = targetW ∧
    (steps % freq ≠ 0 →
      (trainerIteration gradUpdate gamma qPolicy qTarget batchSize freq memory
        sampleIdx policyW targetW steps).2.1 = targetW) ∧
    (steps % freq = 0 →
      (trainerIteration gradUpdate gamma qPolicy qTarget batchSize freq memory
        sampleIdx policyW targetW steps).2.1 =
      (trainerIteration gradUpdate gamma qPolicy qTarget batchSize freq memory
        sampleIdx policyW targetW steps).1) ∧
    (trainerIteration gradUpdate gamma qPolicy qTarget batchSize freq memory
      sampleIdx policyW targetW steps).2.2 = steps + 1 := by
  have htr : (trainStep gradUpdate gamma qPolicy qTarget batchSize memory sampleIdx
      policyW targetW).2.2 = targetW := by
    rw [trainStep]
    split <;> rfl
  refine ⟨rfl, htr, ?_, ?_, ?_⟩
  · intro h
    simp only [trainerIteration, if_neg h]
    split <;> simp [htr]
  · intro h
    simp only [trainerIteration, if_pos h, updateTargetNetwork]
  · rfl

/-- Witness for C9 with the configured cadence `target_update_freq = 10`:
at step counter 3 the iteration leaves the target weights untouched, at
step counter 10 it copies the policy weights into them. -/
theorem target_network_hard_update_cadence_witness :
    (3 % 10 ≠ 0) ∧
    (trainerIteration (fun w : ℚ => w + 1) (99/100) (fun _ => []) (fun _ => [])
      64 10 [] [] 5 7 3).2.1 = 7 ∧
    (10 % 10 = 0) ∧
    (trainerIteration (fun w : ℚ => w + 1) (99/100) (fun _ => []) (fun _ => [])
      64 10 [] [] 5 7 10).2.1 =
    (trainerIteration (fun w : ℚ => w + 1) (99/100) (fun _ => []) (fun _ => [])
      64 10 [] [] 5 7 10).1 := by
  have h3 := target_network_hard_update_cadence (fun w : ℚ => w + 1) (99/100)
    (fun _ => []) (fun _ => []) 64 10 [] [] 5 7 3
  have h10 := target_network_hard_update_cadence (fun w : ℚ => w + 1) (99/100)
    (fun _ => []) (fun _ => []) 64 10 [] [] 5 7 10
  exact ⟨by norm_num, h3.2.2.1 (by norm_num), by norm_num, h10.2.2.2.1 (by norm_num)⟩

/-! ## Simulated environment (`NetworkEnvironment`)

`step(action)` mutates the allocations only inside an
`if action == 0 / elif action == 1 / elif action == 2` chain with no
`else`, then builds a state, computes a reward, advances time and
demands, and returns `(next_state, reward, done)`. The `np.random.randn`
draws are explicit inputs. -/

/-- `np.clip(x, lo, hi)`. -/
def clip (x lo hi : ℚ) : ℚ := max lo (min x hi)

/-- Mutable fields of `NetworkEnvironment` used by `step`. -/
structure EnvState where
  work_demand : ℚ
  entertain_demand : ℚ
  work_allocated : ℚ
  entertain_allocated : ℚ
  current_hour : ℕ
  step_count : ℕ
deriving DecidableEq, Repr

/-- `total_bandwidth = 100.0` Mbps. -/
def totalBandwidth : ℚ := 100

/-- `base_latency = 10.0` ms. -/
def baseLatency : ℚ := 10

/-- `max_steps = 200`. -/
def maxSteps : ℕ := 200

/-- `_get_time_multipliers`: (work, entertainment) multiplier for the
current hour, from the `traffic_patterns` table. -/
def timeMultipliers (hour : ℕ) : ℚ × ℚ :=
  if 6 ≤ hour ∧ hour < 9 then (12/10, 6/10)
  else if (9 ≤ hour ∧ hour < 12) ∨ (13 ≤ hour ∧ hour < 17) then (18/10, 4/10)
  else if 12 ≤ hour ∧ hour < 13 then (8/10, 12/10)
  else if 17 ≤ hour ∧ hour < 23 then (5/10, 20/10)
  else (3/10, 7/10)

/-- The 8 entries of the state vector built by `_get_state`, by name. -/
structure StateObs where
  work_bw_n : ℚ
  ent_bw_n : ℚ
  work_lat_n : ℚ
  ent_lat_n : ℚ
  work_loss : ℚ
  ent_loss : ℚ
  total_bw_n : ℚ
  time_n : ℚ
deriving DecidableEq, Repr

/-- `NetworkEnvironment._get_state`, with the two `np.random.randn()`
draws passed in as `r1`, `r2`. -/
def getState (env : EnvState) (r1 r2 : ℚ) : StateObs :=
  let wm := (timeMultipliers env.current_hour).1
  let em := (timeMultipliers env.current_hour).2
  let wd := clip (env.work_demand * wm + r1 * 5) 0 100
  let ed := clip (env.entertain_demand * em + r2 * 5) 0 100
  let total := wd + ed
  let cf := max 1 (total / totalBandwidth)
  let wbw := min env.work_allocated wd
  let ebw := min env.entertain_allocated ed
  let wlat0 := baseLatency * cf
  let elat0 := baseLatency * cf
  let wlat := if env.work_allocated < wd then wlat0 * (wd / env.work_allocated) else wlat0
  let elat := if env.entertain_allocated < ed then elat0 * (ed / env.entertain_allocated)
    else elat0
  let wloss0 := max 0 ((wd - env.work_allocated) / 100)
  let eloss0 := max 0 ((ed - env.entertain_allocated) / 100)
  let wloss := if (12/10 : ℚ) < cf then wloss0 + (cf - 12/10) * (5/100) else wloss0
  let eloss := if (12/10 : ℚ) < cf then eloss0 + (cf - 12/10) * (5/100) else eloss0
  { work_bw_n := wbw / 100, ent_bw_n := ebw / 100,
    work_lat_n := clip (wlat / 100) 0 1, ent_lat_n := clip (elat / 100) 0 1,
    work_loss := clip wloss 0 1, ent_loss := clip eloss 0 1,
    total_bw_n := totalBandwidth / 100, time_n := (env.current_hour : ℚ) / 23 }

/-- `NetworkEnvironment._calculate_reward(state, action)`. -/
def calculateReward (s : StateObs) (action : ℤ) : ℚ :=
  let work_bw := s.work_bw_n * 100
  let entertain_bw := s.ent_bw_n * 100
  let work_latency := s.work_lat_n * 100
  let entertain_latency := s.ent_lat_n * 100
  let work_loss := s.work_loss
  let entertain_loss := s.ent_loss
  let time_of_day := s.time_n * 23
  let qos : ℚ :=
    if action = 0 then
      (if 50 < work_bw ∧ work_latency < 20 then (15 : ℚ)
       else if 40 < work_bw then 10 else 0) +
      (if work_bw < 30 ∨ 50 < work_latency then (-20 : ℚ) else 0) +
      (if entertain_bw < 15 then (-8 : ℚ) else 0)
    else if action = 1 then
      (if 35 < work_bw ∧ work_bw < 65 ∧ 35 < entertain_bw ∧ entertain_bw < 65
       then (12 : ℚ) else 0) +
      (if 30 < |work_bw - entertain_bw| then (-10 : ℚ) else 0)
    else if action = 2 then
      (if 50 < entertain_bw ∧ entertain_latency < 20 then (15 : ℚ)
       else if 40 < entertain_bw then 10 else 0) +
      (if entertain_bw < 30 ∨ 50 < entertain_latency then (-20 : ℚ) else 0) +
      (if work_bw < 15 then (-8 : ℚ) else 0)
    else 0
  let utilization := (work_bw + entertain_bw) / totalBandwidth
  let lossPenalty := -((work_loss + entertain_loss) * 15)
  let avg_latency := (work_latency + entertain_latency) / 2
  let latencyPenalty := if 30 < avg_latency then -((avg_latency - 30) * (2/10)) else 0
  let timeBonus : ℚ :=
    if 9 ≤ time_of_day ∧ time_of_day ≤ 17 then
      (if action = 0 then (5 : ℚ) else if action = 2 then -5 else 0)
    else if 18 ≤ time_of_day ∧ time_of_day ≤ 23 then
      (if action = 2 then (5 : ℚ) else if action = 0 then -5 else 0)
    else 0
  let fairness := if min work_bw entertain_bw < 10 then (-3 : ℚ) else 0
  qos + utilization * 3 + lossPenalty + latencyPenalty + timeBonus + fairness

/-- The six `np.random.randn()` draws consumed by one `step` call: two in
each of the two `_get_state` calls and two for the demand drift. -/
structure Draws where
  s1 : ℚ
  s2 : ℚ
  s3 : ℚ
  s4 : ℚ
  d1 : ℚ
  d2 : ℚ
deriving DecidableEq, Repr

/-- `NetworkEnvironment.step(action)`: returns the mutated environment
together with the `(next_state, reward, done)` triple the Python method
returns. -/
def envStep (env : EnvState) (action : ℤ) (r : Draws) :
    EnvState × StateObs × ℚ × Bool :=
  let env1 :=
    if action = 0 then { env with work_allocated := 70, entertain_allocated := 30 }
    else if action = 1 then { env with work_allocated := 50, entertain_allocated := 50 }
    else if action = 2 then { env with work_allocated := 30, entertain_allocated := 70 }
    else env
  let st := getState env1 r.s1 r.s2
  let reward := calculateReward st action
  let env2 := { env1 with
    step_count := env1.step_count + 1,
    current_hour := (env1.current_hour + 1) % 24,
    work_demand := clip (env1.work_demand + r.d1 * 3) 10 90,
    entertain_demand := clip (env1.entertain_demand + r.d2 * 3) 10 90 }
  let done := decide (maxSteps ≤ env2.step_count)
  let nextState := getState env2 r.s3 r.s4
  (env2, nextState, reward, done)

/-- **C10.** For any integer action outside `{0, 1, 2}` the `if/elif`
chain of `step` matches nothing, so `work_allocated` and
`entertain_allocated` keep their previous values, while the method still
runs to completion and returns a `(next_state, reward, done)` triple:
the step counter advances, `done` is the usual `step_count >= max_steps`
test, and the reward is computed from the freshly observed state with the
out-of-range action. The positivity hypotheses mirror the invariant of
every reachable environment (allocations are always 30, 50 or 70), under
which the Python divisions by the allocations cannot fault. -/
theorem env_step_invalid_action_safe (env : EnvState) (a : ℤ) (r : Draws)
    (h0 : a ≠ 0) (h1 : a ≠ 1) (h2 : a ≠ 2)
    (hw : 0 < env.work_allocated) (he : 0 < env.entertain_allocated) :
    (envStep env a r).1.work_allocated = env.work_allocated ∧
    (envStep env a r).1.entertain_allocated = env.entertain_allocated ∧
    (envStep env a r).1.step_count = env.step_count + 1 ∧
    (envStep env a r).2.2.2 = decide (maxSteps ≤ env.step_count + 1) ∧
    (envStep env a r).2.2.1 = calculateReward (getState env r.s1 r.s2) a := by
  simp [envStep, h0, h1, h2]

/-- Witness for C10 at action 7 on a balanced mid-episode environment. -/
theorem env_step_invalid_action_safe_witness :
    ((7 : ℤ) ≠ 0) ∧ ((0 : ℚ) < 50) ∧
    (envStep ⟨40, 30, 50, 50, 10, 3⟩ 7 ⟨0, 0, 0, 0, 0, 0⟩).1.work_allocated = 50 ∧
    (envStep ⟨40, 30, 50, 50, 10, 3⟩ 7 ⟨0, 0, 0, 0, 0, 0⟩).1.entertain_allocated = 50 ∧
    (envStep ⟨40, 30, 50, 50, 10, 3⟩ 7 ⟨0, 0, 0, 0, 0, 0⟩).2.2.2 = false := by
  have h := env_step_invalid_action_safe ⟨40, 30, 50, 50, 10, 3⟩ 7 ⟨0, 0, 0, 0, 0, 0⟩
    (by decide) (by decide) (by decide) (by norm_num) (by norm_num)
  refine ⟨by decide, by norm_num, h.1, h.2.1, ?_⟩
  rw [h.2.2.2.1]
  rfl

end RLQoS
